import Mathlib

/-!
Shallow embedding of the Buildbot log-parsing orchestration layer
(`treeherder/log_parser/artifactbuilders.pyx`) and proofs of its
specified properties.

A log line is a sequence of characters (`List Char`).  The external
sub-parsers (module `parsers`, whose sources are not part of the visible
material) are modelled abstractly through the capability contract the
spec states for them: a constant `name`, a `complete` flag readable from
the current internal state, a line-consuming operation, and an
artifact-producing operation.  The Python `dict` holding the composite
artifact is modelled as an association list with insert-or-overwrite
semantics (overwrite keeps the entry's position, fresh keys append),
matching insertion-ordered dictionaries.
-/

set_option autoImplicit false
set_option maxRecDepth 100000

namespace Treeherder

/-- Python's substring test `sub in s`, specialised to character sequences:
true iff `sub` occurs contiguously inside `s`. -/
def containsSub (sub : List Char) : List Char → Bool
  | [] => sub.isEmpty
  | c :: rest => sub.isPrefixOf (c :: rest) || containsSub sub rest

/-- `ArtifactBuilderBase.MAX_LINE_LENGTH = 500`. -/
def MAX_LINE_LENGTH : Nat := 500

/-- Modelled from the spec: an instance of a sub-parser from the external
`parsers` module (not among the visible sources).  It carries the behaviour
required by the capability contract — `name`, `complete`, a line-consuming
operation `parse_line` receiving the line and the line number, and an
artifact-producing operation `get_artifact` — together with its current
internal state `state`. -/
structure SubParser (σ α : Type) where
  name : String
  complete : σ → Bool
  parse_line : σ → List Char → Nat → σ
  get_artifact : σ → α
  state : σ

/-- A value stored in the composite artifact dictionary: either the source
url (under key `"logurl"`) or one sub-parser's artifact fragment. -/
inductive ArtVal (α : Type) where
  | url : Option String → ArtVal α
  | fragment : α → ArtVal α
deriving DecidableEq

/-- Insert-or-overwrite on the association-list model of a Python `dict`:
an existing key keeps its position, a fresh key is appended. -/
def dictSet {α : Type} (m : List (String × ArtVal α)) (k : String) (v : ArtVal α) :
    List (String × ArtVal α) :=
  match m with
  | [] => [(k, v)]
  | (k', v') :: rest => if k' = k then (k, v) :: rest else (k', v') :: dictSet rest k v

/-- Dictionary lookup on the association-list model. -/
def dictGet {α : Type} (m : List (String × ArtVal α)) (k : String) : Option (ArtVal α) :=
  match m with
  | [] => none
  | (k', v') :: rest => if k' = k then some v' else dictGet rest k

/-- The key sequence of the association-list model of a `dict`. -/
def keys {α : Type} (m : List (String × ArtVal α)) : List String :=
  m.map Prod.fst

/-- State of `ArtifactBuilderBase`: the composite artifact dictionary, the
line counter `lineno`, the ordered sub-parser list and the builder name. -/
structure ArtifactBuilderBase (σ α : Type) where
  artifact : List (String × ArtVal α)
  lineno : Nat
  parsers : List (SubParser σ α)
  name : String

/-- `ArtifactBuilderBase.__init__`: artifact holds only `logurl`, the line
counter is zero, the parser list is empty, the name is generic. -/
def ArtifactBuilderBase.init (σ α : Type) (url : Option String) : ArtifactBuilderBase σ α :=
  { artifact := [("logurl", ArtVal.url url)]
    lineno := 0
    parsers := []
    name := "Generic Artifact" }

/-- The truncation policy of `ArtifactBuilderBase.parse_line`: a line
containing neither `"TALOSDATA"` nor `'TalosResult'` is cut to
`MAX_LINE_LENGTH` characters; a line containing either marker is kept
whole. -/
def effectiveLine (line : List Char) : List Char :=
  if containsSub "TALOSDATA".toList line = false ∧
      containsSub "TalosResult".toList line = false then
    line.take MAX_LINE_LENGTH
  else
    line

/-- One iteration of the dispatch loop body: a sub-parser whose `complete`
flag is false consumes the line at the given line number; a complete one is
skipped. -/
def SubParser.dispatch {σ α : Type} (p : SubParser σ α) (line : List Char) (lineno : Nat) :
    SubParser σ α :=
  if p.complete p.state then p else { p with state := p.parse_line p.state line lineno }

/-- `ArtifactBuilderBase.parse_line`: truncate unless a measurement marker
is present, feed the result to every not-yet-complete sub-parser with the
current line number, then increment the line counter. -/
def ArtifactBuilderBase.parse_line {σ α : Type} (b : ArtifactBuilderBase σ α)
    (line : List Char) : ArtifactBuilderBase σ α :=
  let line := effectiveLine line
  { b with
    parsers := b.parsers.map (fun p => p.dispatch line b.lineno)
    lineno := b.lineno + 1 }

/-- The assembly loop of `get_artifact`: store each sub-parser's artifact
under its name, in declaration order. -/
def assemble {σ α : Type} (art : List (String × ArtVal α)) (ps : List (SubParser σ α)) :
    List (String × ArtVal α) :=
  ps.foldl (fun a sp => dictSet a sp.name (ArtVal.fragment (sp.get_artifact sp.state))) art

/-- `ArtifactBuilderBase.get_artifact`: mutates the composite artifact in
place (first component: the builder afterwards) and returns it (second
component). -/
def ArtifactBuilderBase.get_artifact {σ α : Type} (b : ArtifactBuilderBase σ α) :
    ArtifactBuilderBase σ α × List (String × ArtVal α) :=
  let art := assemble b.artifact b.parsers
  ({ b with artifact := art }, art)

/-- Modelled from the spec: the constructors of the four concrete
sub-parsers imported from the external `parsers` module
(`TinderboxPrintParser`, `HeaderParser`, `StepParser`, `TalosParser`).
Only `StepParser` takes a configuration flag (`check_errors`); the others
are constructed without arguments. -/
structure ParserEnv (σ α : Type) where
  TinderboxPrintParser : SubParser σ α
  HeaderParser : SubParser σ α
  StepParser : Bool → SubParser σ α
  TalosParser : SubParser σ α

/-- `BuildbotJobArtifactBuilder.__init__`: base construction, then the
parser list is the tinderbox-print parser alone and the name "Job Info". -/
def BuildbotJobArtifactBuilder {σ α : Type} (env : ParserEnv σ α) (url : Option String) :
    ArtifactBuilderBase σ α :=
  { ArtifactBuilderBase.init σ α url with
    parsers := [env.TinderboxPrintParser]
    name := "Job Info" }

/-- `BuildbotLogViewArtifactBuilder.__init__`: base construction, then the
header parser followed by the step parser (given the `check_errors` flag)
and the name "Structured Log". -/
def BuildbotLogViewArtifactBuilder {σ α : Type} (env : ParserEnv σ α) (url : Option String)
    (check_errors : Bool) : ArtifactBuilderBase σ α :=
  { ArtifactBuilderBase.init σ α url with
    parsers := [env.HeaderParser, env.StepParser check_errors]
    name := "Structured Log" }

/-- `BuildbotPerformanceDataArtifactBuilder.__init__`: base construction,
then the talos parser alone (constructed without arguments) and the name
"talos_data"; the `check_errors` parameter is accepted but unused. -/
def BuildbotPerformanceDataArtifactBuilder {σ α : Type} (env : ParserEnv σ α)
    (url : Option String) (check_errors : Bool) : ArtifactBuilderBase σ α :=
  { ArtifactBuilderBase.init σ α url with
    parsers := [env.TalosParser]
    name := "talos_data" }

/-- Feeding a stream of lines to a builder, one `parse_line` call each, in
order. -/
def processLines {σ α : Type} (b : ArtifactBuilderBase σ α) (lines : List (List Char)) :
    ArtifactBuilderBase σ α :=
  lines.foldl ArtifactBuilderBase.parse_line b

/-- A sub-parser whose line-consuming operation may raise: the fallible
counterpart of `SubParser`, used to model error propagation out of the
dispatch loop. -/
structure SubParserE (σ α ε : Type) where
  name : String
  complete : σ → Bool
  parse_line : σ → List Char → Nat → Except ε σ
  get_artifact : σ → α
  state : σ

/-- The dispatch loop over fallible sub-parsers: runs left to right, skips
complete parsers, and stops at the first raised error, leaving the failing
parser and all later ones untouched.  Returns the parser list as mutated so
far and the propagated error, if any. -/
def dispatchE {σ α ε : Type} :
    List (SubParserE σ α ε) → List Char → Nat → List (SubParserE σ α ε) × Option ε
  | [], _, _ => ([], none)
  | p :: ps, line, n =>
    if p.complete p.state then
      let r := dispatchE ps line n
      (p :: r.1, r.2)
    else
      match p.parse_line p.state line n with
      | Except.error e => (p :: ps, some e)
      | Except.ok s =>
        let r := dispatchE ps line n
        ({ p with state := s } :: r.1, r.2)

/-- Builder state over fallible sub-parsers. -/
structure ArtifactBuilderBaseE (σ α ε : Type) where
  artifact : List (String × ArtVal α)
  lineno : Nat
  parsers : List (SubParserE σ α ε)
  name : String

/-- `ArtifactBuilderBase.parse_line` over fallible sub-parsers: on an error
the dispatch loop stops, the error propagates, and the trailing
`lineno += 1` is not executed; otherwise the counter increments as usual. -/
def ArtifactBuilderBaseE.parse_line {σ α ε : Type} (b : ArtifactBuilderBaseE σ α ε)
    (line : List Char) : ArtifactBuilderBaseE σ α ε × Option ε :=
  let line := effectiveLine line
  let r := dispatchE b.parsers line b.lineno
  match r.2 with
  | some e => ({ b with parsers := r.1 }, some e)
  | none => ({ b with parsers := r.1, lineno := b.lineno + 1 }, none)

/-- The behavioural signature of a sub-parser: everything except its
mutable internal state. -/
def SubParser.sig {σ α : Type} (p : SubParser σ α) :
    String × (σ → Bool) × (σ → List Char → Nat → σ) × (σ → α) :=
  (p.name, p.complete, p.parse_line, p.get_artifact)

/-- The artifact fragment the assembly loop leaves under key `k`: the one
contributed by the last sub-parser named `k`, if any (later writes win). -/
def lastFragment {σ α : Type} : List (SubParser σ α) → String → Option (ArtVal α)
  | [], _ => none
  | p :: ps, k =>
    match lastFragment ps k with
    | some v => some v
    | none =>
      if p.name = k then some (ArtVal.fragment (p.get_artifact p.state)) else none

/-- The composite-artifact contract of `get_artifact` for a builder whose
dictionary was initialised with `logurl ↦ url`: the key set is exactly
`logurl` plus the sub-parser names, `logurl` still holds the source url
(provided no sub-parser hijacks that key), and under distinct sub-parser
names each name holds that parser's own artifact fragment. -/
def composedOk {σ α : Type} (b : ArtifactBuilderBase σ α) (url : Option String) : Prop :=
  (∀ k, k ∈ keys b.get_artifact.2 ↔ (k = "logurl" ∨ k ∈ b.parsers.map SubParser.name)) ∧
  ("logurl" ∉ b.parsers.map SubParser.name →
    dictGet b.get_artifact.2 "logurl" = some (ArtVal.url url)) ∧
  ((b.parsers.map SubParser.name).Nodup →
    ∀ p ∈ b.parsers, dictGet b.get_artifact.2 p.name =
      some (ArtVal.fragment (p.get_artifact p.state)))

/-- A concrete sub-parser for witnesses: never complete, counts the lines
it consumes and reports the count as its artifact. -/
def countingParser (nm : String) : SubParser Nat Nat :=
  { name := nm
    complete := fun _ => false
    parse_line := fun s _ _ => s + 1
    get_artifact := fun s => s
    state := 0 }

/-- A concrete sub-parser for witnesses: already complete, frozen state. -/
def doneParser (nm : String) : SubParser Nat Nat :=
  { name := nm
    complete := fun _ => true
    parse_line := fun s _ _ => s + 1
    get_artifact := fun s => s
    state := 7 }

/-- A concrete environment of sub-parser constructors for witnesses. -/
def sampleEnv : ParserEnv Nat Nat :=
  { TinderboxPrintParser := countingParser "tinderbox"
    HeaderParser := countingParser "header"
    StepParser := fun _ => countingParser "step"
    TalosParser := countingParser "talos" }

/-- A concrete builder for witnesses: one complete and one active parser. -/
def sampleBuilder : ArtifactBuilderBase Nat Nat :=
  { artifact := [("logurl", ArtVal.url (some "http://x/log.txt"))]
    lineno := 0
    parsers := [doneParser "done", countingParser "count"]
    name := "Sample" }

/-- A 600-character line with no measurement marker. -/
def longPlainLine : List Char := List.replicate 600 'b'

/-- A 609-character line whose bulk-measurement marker starts at index 600. -/
def longTalosLine : List Char := List.replicate 600 'a' ++ "TALOSDATA".toList

/-- A concrete fallible sub-parser for witnesses: always raises. -/
def raisingParser : SubParserE Nat Nat String :=
  { name := "raising"
    complete := fun _ => false
    parse_line := fun _ _ _ => Except.error "boom"
    get_artifact := fun s => s
    state := 0 }

/-- A concrete fallible sub-parser for witnesses: counts lines, never
raises. -/
def countingParserE (nm : String) : SubParserE Nat Nat String :=
  { name := nm
    complete := fun _ => false
    parse_line := fun s _ _ => Except.ok (s + 1)
    get_artifact := fun s => s
    state := 0 }

/-- A concrete fallible builder for witnesses: a raising parser followed by
a well-behaved one. -/
def sampleBuilderE : ArtifactBuilderBaseE Nat Nat String :=
  { artifact := [("logurl", ArtVal.url none)]
    lineno := 5
    parsers := [raisingParser, countingParserE "after"]
    name := "SampleE" }

/-! Section: Basic lemmas about dispatch and the processing loop -/

theorem SubParser.dispatch_of_complete {σ α : Type} (p : SubParser σ α) (line : List Char)
    (n : Nat) (h : p.complete p.state = true) : p.dispatch line n = p := by
  unfold SubParser.dispatch
  simp [h]

theorem SubParser.dispatch_of_not_complete {σ α : Type} (p : SubParser σ α) (line : List Char)
    (n : Nat) (h : p.complete p.state = false) :
    p.dispatch line n = { p with state := p.parse_line p.state line n } := by
  unfold SubParser.dispatch
  simp [h]

theorem SubParser.dispatch_sig {σ α : Type} (p : SubParser σ α) (line : List Char) (n : Nat) :
    (p.dispatch line n).sig = p.sig := by
  unfold SubParser.dispatch
  split <;> rfl

theorem parse_line_artifact {σ α : Type} (b : ArtifactBuilderBase σ α) (line : List Char) :
    (b.parse_line line).artifact = b.artifact := rfl

theorem parse_line_name {σ α : Type} (b : ArtifactBuilderBase σ α) (line : List Char) :
    (b.parse_line line).name = b.name := rfl

theorem parse_line_lineno {σ α : Type} (b : ArtifactBuilderBase σ α) (line : List Char) :
    (b.parse_line line).lineno = b.lineno + 1 := rfl

theorem parse_line_parsers {σ α : Type} (b : ArtifactBuilderBase σ α) (line : List Char) :
    (b.parse_line line).parsers =
      b.parsers.map (fun p => p.dispatch (effectiveLine line) b.lineno) := rfl

theorem processLines_nil {σ α : Type} (b : ArtifactBuilderBase σ α) :
    processLines b [] = b := rfl

theorem processLines_cons {σ α : Type} (b : ArtifactBuilderBase σ α) (l : List Char)
    (ls : List (List Char)) : processLines b (l :: ls) = processLines (b.parse_line l) ls := rfl

theorem processLines_artifact {σ α : Type} (b : ArtifactBuilderBase σ α)
    (lines : List (List Char)) : (processLines b lines).artifact = b.artifact := by
  induction lines generalizing b with
  | nil => rfl
  | cons l ls ih => rw [processLines_cons, ih, parse_line_artifact]

theorem processLines_name {σ α : Type} (b : ArtifactBuilderBase σ α)
    (lines : List (List Char)) : (processLines b lines).name = b.name := by
  induction lines generalizing b with
  | nil => rfl
  | cons l ls ih => rw [processLines_cons, ih, parse_line_name]

theorem processLines_lineno {σ α : Type} (b : ArtifactBuilderBase σ α)
    (lines : List (List Char)) : (processLines b lines).lineno = b.lineno + lines.length := by
  induction lines generalizing b with
  | nil => rfl
  | cons l ls ih =>
    rw [processLines_cons, ih, parse_line_lineno, List.length_cons]
    omega

theorem getElem?_parse_line {σ α : Type} (b : ArtifactBuilderBase σ α) (line : List Char)
    (i : Nat) :
    (b.parse_line line).parsers[i]? =
      (b.parsers[i]?).map (fun p => p.dispatch (effectiveLine line) b.lineno) := by
  rw [parse_line_parsers, List.getElem?_map]

/-! Section: Claims about the truncation policy -/

/-- Claim C1: a line containing neither the bulk-measurement-data marker
`"TALOSDATA"` nor the named-measurement-result marker `'TalosResult'` is
dispatched to every not-yet-complete sub-parser as its 500-character
prefix: at most 500 characters long, and equal to the input when the input
has at most 500 characters. -/
theorem C1_no_marker_truncates (σ α : Type) (b : ArtifactBuilderBase σ α) (line : List Char)
    (h1 : containsSub "TALOSDATA".toList line = false)
    (h2 : containsSub "TalosResult".toList line = false) :
    effectiveLine line = line.take MAX_LINE_LENGTH ∧
    (effectiveLine line).length ≤ 500 ∧
    (line.length ≤ 500 → effectiveLine line = line) ∧
    (b.parse_line line).parsers =
      b.parsers.map (fun p => p.dispatch (line.take MAX_LINE_LENGTH) b.lineno) := by
  have heff : effectiveLine line = line.take MAX_LINE_LENGTH := by
    unfold effectiveLine
    rw [if_pos ⟨h1, h2⟩]
  refine ⟨heff, ?_, ?_, ?_⟩
  · rw [heff, MAX_LINE_LENGTH]
    exact le_trans (List.length_take_le 500 line) (le_refl 500)
  · intro hlen
    rw [heff, MAX_LINE_LENGTH]
    exact List.take_of_length_le hlen
  · rw [parse_line_parsers, heff]

/-- Witness for C1 at a concrete 600-character marker-free line: the
hypotheses hold and the dispatched line is the 500-character prefix. -/
theorem C1_no_marker_truncates_witness :
    containsSub "TALOSDATA".toList longPlainLine = false ∧
    containsSub "TalosResult".toList longPlainLine = false ∧
    (effectiveLine longPlainLine = longPlainLine.take MAX_LINE_LENGTH ∧
      (effectiveLine longPlainLine).length ≤ 500 ∧
      (longPlainLine.length ≤ 500 → effectiveLine longPlainLine = longPlainLine) ∧
      (sampleBuilder.parse_line longPlainLine).parsers =
        sampleBuilder.parsers.map
          (fun p => p.dispatch (longPlainLine.take MAX_LINE_LENGTH) sampleBuilder.lineno)) :=
  ⟨by decide, by decide,
    C1_no_marker_truncates Nat Nat sampleBuilder longPlainLine (by decide) (by decide)⟩

/-- Claim C2: a line containing either measurement marker anywhere —
including beyond index 500 — is dispatched to every not-yet-complete
sub-parser byte-identical to the input, regardless of its length. -/
theorem C2_marker_passes_whole (σ α : Type) (b : ArtifactBuilderBase σ α) (line : List Char)
    (h : containsSub "TALOSDATA".toList line = true ∨
      containsSub "TalosResult".toList line = true) :
    effectiveLine line = line ∧
    (b.parse_line line).parsers =
      b.parsers.map (fun p => p.dispatch line b.lineno) := by
  have heff : effectiveLine line = line := by
    unfold effectiveLine
    rw [if_neg]
    rintro ⟨hc1, hc2⟩
    rcases h with h | h
    · rw [h] at hc1
      exact Bool.noConfusion hc1
    · rw [h] at hc2
      exact Bool.noConfusion hc2
  exact ⟨heff, by rw [parse_line_parsers, heff]⟩

/-- Witness for C2 at a concrete 609-character line whose marker starts at
index 600: the line is longer than 500 characters and is dispatched
unmodified. -/
theorem C2_marker_passes_whole_witness :
    containsSub "TALOSDATA".toList longTalosLine = true ∧
    500 < longTalosLine.length ∧
    (effectiveLine longTalosLine = longTalosLine ∧
      (sampleBuilder.parse_line longTalosLine).parsers =
        sampleBuilder.parsers.map
          (fun p => p.dispatch longTalosLine sampleBuilder.lineno)) :=
  ⟨by decide, by decide,
    C2_marker_passes_whole Nat Nat sampleBuilder longTalosLine (Or.inl (by decide))⟩

/-! Section: Claims about the line counter, the frame of `parse_line`, and the
variant wiring -/

/-- Claim C4: the line counter starts at 0 at construction, increments by
exactly 1 per `parse_line` call regardless of line content and parser
completion state, is untouched by `get_artifact`, and after exactly N calls
since construction equals N. -/
theorem C4_line_counter (σ α : Type) :
    (∀ url, (ArtifactBuilderBase.init σ α url).lineno = 0) ∧
    (∀ (b : ArtifactBuilderBase σ α) line, (b.parse_line line).lineno = b.lineno + 1) ∧
    (∀ b : ArtifactBuilderBase σ α, b.get_artifact.1.lineno = b.lineno) ∧
    (∀ (b : ArtifactBuilderBase σ α) lines,
      (processLines b lines).lineno = b.lineno + lines.length) ∧
    (∀ url lines, (processLines (ArtifactBuilderBase.init σ α url) lines).lineno =
      lines.length) := by
  refine ⟨fun _ => rfl, fun b line => rfl, fun b => rfl, fun b lines => processLines_lineno b lines, ?_⟩
  intro url lines
  rw [processLines_lineno]
  exact Nat.zero_add _

/-- Claim C9: `parse_line` leaves the builder name, the composite artifact
(in particular its `logurl` entry) and the parser list's length and
behavioural signatures unchanged; its only effects are the replacement of
each not-yet-complete sub-parser's state by one dispatch step and the
counter increment. -/
theorem C9_parse_line_frame (σ α : Type) (b : ArtifactBuilderBase σ α) (line : List Char) :
    (b.parse_line line).name = b.name ∧
    (b.parse_line line).artifact = b.artifact ∧
    dictGet (b.parse_line line).artifact "logurl" = dictGet b.artifact "logurl" ∧
    (b.parse_line line).parsers.length = b.parsers.length ∧
    (b.parse_line line).parsers.map SubParser.sig = b.parsers.map SubParser.sig ∧
    (b.parse_line line).lineno = b.lineno + 1 ∧
    (b.parse_line line).parsers =
      b.parsers.map (fun p => p.dispatch (effectiveLine line) b.lineno) := by
  refine ⟨rfl, rfl, rfl, ?_, ?_, rfl, rfl⟩
  · rw [parse_line_parsers, List.length_map]
  · rw [parse_line_parsers, List.map_map]
    apply List.map_congr_left
    intro p _
    exact SubParser.dispatch_sig p (effectiveLine line) b.lineno

/-- Claim C7: the job-info builder wires exactly the tinderbox-print parser
under the name "Job Info", the structured-log-view builder wires the header
parser then the step parser under "Structured Log", the performance-data
builder wires exactly the talos parser under "talos_data", and every
variant keeps the base construction of the artifact dictionary and the
line counter. -/
theorem C7_variant_wiring (σ α : Type) (env : ParserEnv σ α) (url : Option String) (ce : Bool) :
    (BuildbotJobArtifactBuilder env url).parsers = [env.TinderboxPrintParser] ∧
    (BuildbotJobArtifactBuilder env url).name = "Job Info" ∧
    (BuildbotLogViewArtifactBuilder env url ce).parsers =
      [env.HeaderParser, env.StepParser ce] ∧
    (BuildbotLogViewArtifactBuilder env url ce).name = "Structured Log" ∧
    (BuildbotPerformanceDataArtifactBuilder env url ce).parsers = [env.TalosParser] ∧
    (BuildbotPerformanceDataArtifactBuilder env url ce).name = "talos_data" ∧
    (BuildbotJobArtifactBuilder env url).artifact =
      (ArtifactBuilderBase.init σ α url).artifact ∧
    (BuildbotLogViewArtifactBuilder env url ce).artifact =
      (ArtifactBuilderBase.init σ α url).artifact ∧
    (BuildbotPerformanceDataArtifactBuilder env url ce).artifact =
      (ArtifactBuilderBase.init σ α url).artifact ∧
    (BuildbotJobArtifactBuilder env url).lineno = 0 ∧
    (BuildbotLogViewArtifactBuilder env url ce).lineno = 0 ∧
    (BuildbotPerformanceDataArtifactBuilder env url ce).lineno = 0 :=
  ⟨rfl, rfl, rfl, rfl, rfl, rfl, rfl, rfl, rfl, rfl, rfl, rfl⟩

/-- Claim C3 fails on the performance-data variant: its constructor accepts
a `check_errors` flag but does not forward it anywhere — constructing the
builder with `check_errors = false` and with `check_errors = true` yields
identical builders, so no sub-parser constructor receives the flag. -/
theorem C3_perf_flag_dropped :
    BuildbotPerformanceDataArtifactBuilder sampleEnv none false =
      BuildbotPerformanceDataArtifactBuilder sampleEnv none true := rfl

/-- Claim C3 as amended: the structured-log-view builder forwards its
`check_errors` flag unchanged to the step parser's constructor; the
job-info builder accepts no variant-specific flag; the performance-data
builder accepts a `check_errors` flag but ignores it — its talos parser is
constructed without arguments and the builder is independent of the
flag. -/
theorem C3_flag_forwarding (σ α : Type) (env : ParserEnv σ α) (url : Option String)
    (ce ce2 : Bool) :
    (BuildbotLogViewArtifactBuilder env url ce).parsers =
      [env.HeaderParser, env.StepParser ce] ∧
    (BuildbotPerformanceDataArtifactBuilder env url ce).parsers = [env.TalosParser] ∧
    BuildbotPerformanceDataArtifactBuilder env url ce =
      BuildbotPerformanceDataArtifactBuilder env url ce2 :=
  ⟨rfl, rfl, rfl⟩

/-! Section: Claims about completion semantics -/

theorem processLines_complete_getElem {σ α : Type} (i : Nat) (p : SubParser σ α)
    (lines : List (List Char)) :
    ∀ b : ArtifactBuilderBase σ α, b.parsers[i]? = some p → p.complete p.state = true →
      (processLines b lines).parsers[i]? = some p := by
  induction lines with
  | nil =>
    intro b hp _
    rw [processLines_nil]
    exact hp
  | cons l ls ih =>
    intro b hp hc
    rw [processLines_cons]
    refine ih (b.parse_line l) ?_ hc
    rw [getElem?_parse_line, hp]
    simp [SubParser.dispatch_of_complete p _ _ hc]

/-- Claim C5: a sub-parser whose `complete` flag is true is never invoked
again: any number of further `parse_line` calls leaves the parser — hence
its internal state and its artifact output — unchanged; a sub-parser whose
flag is false is invoked exactly once per call, consuming the dispatched
line at the current line number. -/
theorem C5_complete_parsers_skipped (σ α : Type) :
    (∀ (b : ArtifactBuilderBase σ α) (i : Nat) (p : SubParser σ α),
      b.parsers[i]? = some p → p.complete p.state = true →
      ∀ lines, (processLines b lines).parsers[i]? = some p ∧
        ((processLines b lines).parsers[i]?).map (fun q => q.get_artifact q.state) =
          some (p.get_artifact p.state)) ∧
    (∀ (b : ArtifactBuilderBase σ α) (i : Nat) (p : SubParser σ α) (line : List Char),
      b.parsers[i]? = some p → p.complete p.state = false →
      (b.parse_line line).parsers[i]? =
        some { p with state := p.parse_line p.state (effectiveLine line) b.lineno }) := by
  constructor
  · intro b i p hp hc lines
    have h := processLines_complete_getElem i p lines b hp hc
    refine ⟨h, ?_⟩
    rw [h]
    rfl
  · intro b i p line hp hc
    rw [getElem?_parse_line, hp]
    simp [SubParser.dispatch_of_not_complete p _ _ hc]

/-- Witness for C5: in the sample builder the parser at index 0 is
complete and survives two processed lines unchanged, while the active
parser at index 1 consumes one dispatch step per call. -/
theorem C5_complete_parsers_skipped_witness :
    (sampleBuilder.parsers[0]? = some (doneParser "done") ∧
      (doneParser "done").complete (doneParser "done").state = true ∧
      (processLines sampleBuilder ["ok".toList, "go".toList]).parsers[0]? =
        some (doneParser "done")) ∧
    (sampleBuilder.parsers[1]? = some (countingParser "count") ∧
      (countingParser "count").complete (countingParser "count").state = false ∧
      (sampleBuilder.parse_line "ok".toList).parsers[1]? =
        some { countingParser "count" with
          state := (countingParser "count").parse_line (countingParser "count").state
            (effectiveLine "ok".toList) sampleBuilder.lineno }) :=
  ⟨⟨rfl, rfl,
    ((C5_complete_parsers_skipped Nat Nat).1 sampleBuilder 0 (doneParser "done") rfl rfl
      ["ok".toList, "go".toList]).1⟩,
   ⟨rfl, rfl,
    (C5_complete_parsers_skipped Nat Nat).2 sampleBuilder 1 (countingParser "count")
      "ok".toList rfl rfl⟩⟩

/-! Section: Lemmas about the dictionary model and artifact assembly -/

theorem mem_keys_dictSet {α : Type} (m : List (String × ArtVal α)) (k : String) (v : ArtVal α)
    (q : String) : q ∈ keys (dictSet m k v) ↔ q = k ∨ q ∈ keys m := by
  induction m with
  | nil => simp [dictSet, keys]
  | cons a rest ih =>
    obtain ⟨ka, va⟩ := a
    rw [dictSet]
    by_cases hka : ka = k
    · subst hka
      rw [if_pos rfl]
      simp [keys]
    · rw [if_neg hka]
      simp only [keys, List.map_cons, List.mem_cons] at ih ⊢
      rw [ih]
      tauto

theorem keys_dictSet_mem {α : Type} (m : List (String × ArtVal α)) (k : String) (v : ArtVal α)
    (h : k ∈ keys m) : keys (dictSet m k v) = keys m := by
  induction m with
  | nil => simp [keys] at h
  | cons a rest ih =>
    obtain ⟨ka, va⟩ := a
    rw [dictSet]
    by_cases hka : ka = k
    · subst hka
      rw [if_pos rfl]
      rfl
    · rw [if_neg hka]
      simp only [keys, List.map_cons, List.mem_cons] at h
      rcases h with h | h

      · exact absurd h.symm hka
      · rw [keys, List.map_cons, keys, List.map_cons]
        rw [show List.map Prod.fst (dictSet rest k v) = keys (dictSet rest k v) from rfl]
        rw [ih h]
        rfl

theorem keys_dictSet_not_mem {α : Type} (m : List (String × ArtVal α)) (k : String)
    (v : ArtVal α) (h : k ∉ keys m) : keys (dictSet m k v) = keys m ++ [k] := by
  induction m with
  | nil => simp [dictSet, keys]
  | cons a rest ih =>
    obtain ⟨ka, va⟩ := a
    simp only [keys, List.map_cons, List.mem_cons] at h
    push_neg at h
    rw [dictSet, if_neg (fun hka => h.1 hka.symm)]
    rw [keys, List.map_cons]
    rw [show List.map Prod.fst (dictSet rest k v) = keys (dictSet rest k v) from rfl]
    rw [ih h.2]
    rfl

theorem nodup_keys_dictSet {α : Type} (m : List (String × ArtVal α)) (k : String)
    (v : ArtVal α) (h : (keys m).Nodup) : (keys (dictSet m k v)).Nodup := by
  by_cases hk : k ∈ keys m
  · rw [keys_dictSet_mem m k v hk]
    exact h
  · rw [keys_dictSet_not_mem m k v hk]
    simp [List.nodup_append, h, hk]

theorem dictGet_dictSet_self {α : Type} (m : List (String × ArtVal α)) (k : String)
    (v : ArtVal α) : dictGet (dictSet m k v) k = some v := by
  induction m with
  | nil => simp [dictSet, dictGet]
  | cons a rest ih =>
    obtain ⟨ka, va⟩ := a
    rw [dictSet]
    by_cases hka : ka = k
    · subst hka
      rw [if_pos rfl, dictGet, if_pos rfl]
    · rw [if_neg hka, dictGet, if_neg hka]
      exact ih

theorem dictGet_dictSet_ne {α : Type} (m : List (String × ArtVal α)) (k : String)
    (v : ArtVal α) (q : String) (hq : q ≠ k) : dictGet (dictSet m k v) q = dictGet m q := by
  induction m with
  | nil =>
    rw [dictSet]
    rw [show dictGet [(k, v)] q = if k = q then some v else none from rfl]
    rw [if_neg (fun h : k = q => hq h.symm)]
    rfl
  | cons a rest ih =>
    obtain ⟨ka, va⟩ := a
    rw [dictSet]
    by_cases hka : ka = k
    · subst hka
      rw [if_pos rfl, dictGet, dictGet, if_neg (fun h => hq h.symm),
        if_neg (fun h => hq h.symm)]
    · rw [if_neg hka, dictGet, dictGet]
      by_cases hkq : ka = q
      · rw [if_pos hkq, if_pos hkq]
      · rw [if_neg hkq, if_neg hkq]
        exact ih

theorem dictGet_eq_none_of_not_mem {α : Type} (m : List (String × ArtVal α)) (k : String)
    (h : k ∉ keys m) : dictGet m k = none := by
  induction m with
  | nil => rfl
  | cons a rest ih =>
    obtain ⟨ka, va⟩ := a
    simp only [keys, List.map_cons, List.mem_cons] at h
    push_neg at h
    rw [dictGet, if_neg (fun hka => h.1 hka.symm)]
    exact ih h.2

theorem dict_ext {α : Type} :
    ∀ (m1 m2 : List (String × ArtVal α)), (keys m1).Nodup → keys m1 = keys m2 →
      (∀ k, dictGet m1 k = dictGet m2 k) → m1 = m2 := by
  intro m1
  induction m1 with
  | nil =>
    intro m2 _ hkeys _
    have : keys m2 = [] := hkeys.symm
    cases m2 with
    | nil => rfl
    | cons a rest => simp [keys] at this
  | cons a t1 ih =>
    intro m2 hnd hkeys hget
    obtain ⟨k, v⟩ := a
    cases m2 with
    | nil => simp [keys] at hkeys
    | cons a2 t2 =>
      obtain ⟨k2, v2⟩ := a2
      simp only [keys, List.map_cons, List.cons.injEq] at hkeys
      obtain ⟨hk2, htkeys⟩ := hkeys
      subst hk2
      have hv : v = v2 := by
        have h := hget k
        rw [dictGet, if_pos rfl, dictGet, if_pos rfl] at h
        exact Option.some.inj h
      subst hv
      simp only [keys, List.map_cons, List.nodup_cons] at hnd
      have htail : t1 = t2 := by
        refine ih t2 hnd.2 htkeys ?_
        intro q
        by_cases hq : q = k
        · subst hq
          have h2 : q ∉ List.map Prod.fst t2 := htkeys ▸ hnd.1
          rw [dictGet_eq_none_of_not_mem t1 q hnd.1]
          rw [dictGet_eq_none_of_not_mem t2 q h2]
        · have h := hget q
          rw [dictGet, if_neg (fun h2 => hq h2.symm), dictGet,
            if_neg (fun h2 => hq h2.symm)] at h
          exact h
      rw [htail]

theorem assemble_nil {σ α : Type} (art : List (String × ArtVal α)) :
    assemble art ([] : List (SubParser σ α)) = art := rfl

theorem assemble_cons {σ α : Type} (art : List (String × ArtVal α)) (p : SubParser σ α)
    (ps : List (SubParser σ α)) :
    assemble art (p :: ps) =
      assemble (dictSet art p.name (ArtVal.fragment (p.get_artifact p.state))) ps := rfl

theorem mem_keys_assemble {σ α : Type} (ps : List (SubParser σ α)) :
    ∀ (art : List (String × ArtVal α)) (q : String),
      q ∈ keys (assemble art ps) ↔ q ∈ keys art ∨ q ∈ ps.map SubParser.name := by
  induction ps with
  | nil => simp [assemble_nil]
  | cons p ps ih =>
    intro art q
    rw [assemble_cons, ih, mem_keys_dictSet]
    simp only [List.map_cons, List.mem_cons, SubParser.name]
    tauto

theorem keys_assemble_of_mem {σ α : Type} (ps : List (SubParser σ α)) :
    ∀ art : List (String × ArtVal α), (∀ p ∈ ps, p.name ∈ keys art) →
      keys (assemble art ps) = keys art := by
  induction ps with
  | nil => intro art _; rfl
  | cons p ps ih =>
    intro art h
    rw [assemble_cons]
    have hkeys : keys (dictSet art p.name (ArtVal.fragment (p.get_artifact p.state))) =
        keys art :=
      keys_dictSet_mem art p.name _ (h p (List.mem_cons_self p ps))
    rw [ih _ (fun q hq => by rw [hkeys]; exact h q (List.mem_cons_of_mem p hq)), hkeys]

theorem nodup_keys_assemble {σ α : Type} (ps : List (SubParser σ α)) :
    ∀ art : List (String × ArtVal α), (keys art).Nodup → (keys (assemble art ps)).Nodup := by
  induction ps with
  | nil => intro art h; exact h
  | cons p ps ih =>
    intro art h
    rw [assemble_cons]
    exact ih _ (nodup_keys_dictSet art p.name _ h)

theorem lastFragment_eq_none_of_not_mem {σ α : Type} (ps : List (SubParser σ α)) (k : String)
    (h : k ∉ ps.map SubParser.name) : lastFragment ps k = none := by
  induction ps with
  | nil => rfl
  | cons p ps ih =>
    simp only [List.map_cons, List.mem_cons] at h
    push_neg at h
    rw [lastFragment, ih h.2]
    rw [if_neg (fun hp => h.1 hp.symm)]

theorem dictGet_assemble_of_none {σ α : Type} (ps : List (SubParser σ α)) (k : String) :
    ∀ art : List (String × ArtVal α), lastFragment ps k = none →
      dictGet (assemble art ps) k = dictGet art k := by
  induction ps with
  | nil => intro art _; rfl
  | cons p ps ih =>
    intro art h
    rw [lastFragment] at h
    cases hlf : lastFragment ps k with
    | some v => rw [hlf] at h; cases h
    | none =>
      rw [hlf] at h
      have hpk : p.name ≠ k := by
        intro hpk
        rw [if_pos hpk] at h
        cases h
      rw [assemble_cons, ih _ hlf, dictGet_dictSet_ne _ _ _ _ (fun hq => hpk hq.symm)]

theorem dictGet_assemble_of_some {σ α : Type} (ps : List (SubParser σ α)) (k : String)
    (v : ArtVal α) :
    ∀ art : List (String × ArtVal α), lastFragment ps k = some v →
      dictGet (assemble art ps) k = some v := by
  induction ps with
  | nil => intro art h; cases h
  | cons p ps ih =>
    intro art h
    rw [lastFragment] at h
    cases hlf : lastFragment ps k with
    | some w =>
      rw [hlf] at h
      rw [assemble_cons]
      exact ih _ (hlf.trans h)
    | none =>
      rw [hlf] at h
      by_cases hpk : p.name = k
      · rw [if_pos hpk] at h
        rw [assemble_cons, dictGet_assemble_of_none ps k _ hlf]
        subst hpk
        rw [dictGet_dictSet_self]
        exact h
      · rw [if_neg hpk] at h
        cases h

theorem lastFragment_of_nodup {σ α : Type} (ps : List (SubParser σ α))
    (hnd : (ps.map SubParser.name).Nodup) :
    ∀ p ∈ ps, lastFragment ps p.name = some (ArtVal.fragment (p.get_artifact p.state)) := by
  induction ps with
  | nil => intro p hp; cases hp
  | cons q qs ih =>
    simp only [List.map_cons, List.nodup_cons] at hnd
    intro p hp
    rcases List.mem_cons.mp hp with hpq | hp
    · subst hpq
      rw [lastFragment, lastFragment_eq_none_of_not_mem qs p.name hnd.1, if_pos rfl]
    · rw [lastFragment, ih hnd.2 p hp]

/-! Section: Claims about artifact composition -/

theorem composedOk_of_artifact {σ α : Type} (b : ArtifactBuilderBase σ α) (url : Option String)
    (hart : b.artifact = [("logurl", ArtVal.url url)]) : composedOk b url := by
  have hart2 : b.get_artifact.2 = assemble b.artifact b.parsers := rfl
  refine ⟨?_, ?_, ?_⟩
  · intro k
    rw [hart2, mem_keys_assemble, hart]
    simp [keys]
  · intro hnot
    rw [hart2, dictGet_assemble_of_none b.parsers "logurl" b.artifact
      (lastFragment_eq_none_of_not_mem b.parsers "logurl" hnot), hart]
    rw [dictGet, if_pos rfl]
  · intro hnd p hp
    rw [hart2]
    exact dictGet_assemble_of_some b.parsers p.name _ b.artifact
      (lastFragment_of_nodup b.parsers hnd p hp)

/-- Claim C6: for each builder variant, after any sequence of processed
lines the mapping returned by `get_artifact` has exactly the key set
`{logurl} ∪ {name of each configured sub-parser}`, with `logurl` holding
the source url given at construction and each sub-parser key holding that
parser's own artifact-producing result. -/
theorem C6_composite_artifact (σ α : Type) (env : ParserEnv σ α) (url : Option String)
    (ce : Bool) (lines : List (List Char)) :
    composedOk (processLines (BuildbotJobArtifactBuilder env url) lines) url ∧
    composedOk (processLines (BuildbotLogViewArtifactBuilder env url ce) lines) url ∧
    composedOk (processLines (BuildbotPerformanceDataArtifactBuilder env url ce) lines) url := by
  refine ⟨?_, ?_, ?_⟩ <;>
  · apply composedOk_of_artifact
    rw [processLines_artifact]
    rfl

/-- Witness for C6: on the job-info builder with a concrete url and the
empty stream, the composite artifact contains the key `logurl` mapped to
the url and the key of its single sub-parser mapped to that parser's
artifact; both keys belong to the computed key set. -/
theorem C6_composite_artifact_witness :
    ("logurl" ∈ keys (processLines
      (BuildbotJobArtifactBuilder sampleEnv (some "http://x/log.txt")) []).get_artifact.2) ∧
    ("tinderbox" ∈ keys (processLines
      (BuildbotJobArtifactBuilder sampleEnv (some "http://x/log.txt")) []).get_artifact.2) ∧
    dictGet (processLines
        (BuildbotJobArtifactBuilder sampleEnv (some "http://x/log.txt")) []).get_artifact.2
      "logurl" = some (ArtVal.url (some "http://x/log.txt")) ∧
    dictGet (processLines
        (BuildbotJobArtifactBuilder sampleEnv (some "http://x/log.txt")) []).get_artifact.2
      "tinderbox" =
      some (ArtVal.fragment ((countingParser "tinderbox").get_artifact
        (countingParser "tinderbox").state)) :=
  ⟨((C6_composite_artifact Nat Nat sampleEnv (some "http://x/log.txt") true []).1.1
      "logurl").mpr (Or.inl rfl),
   ((C6_composite_artifact Nat Nat sampleEnv (some "http://x/log.txt") true []).1.1
      "tinderbox").mpr (Or.inr (by decide)),
   (C6_composite_artifact Nat Nat sampleEnv (some "http://x/log.txt") true []).1.2.1
      (by decide),
   (C6_composite_artifact Nat Nat sampleEnv (some "http://x/log.txt") true []).1.2.2
      (by decide) (countingParser "tinderbox") (List.mem_cons_self _ _)⟩

/-- Claim C8: with no intervening `parse_line`, a second `get_artifact`
call returns the same mapping as the first; `get_artifact` resets neither
the sub-parsers nor the line counter; and a call after further processed
lines assembles the mapping from the updated parser states. -/
theorem C8_get_artifact_idempotent (σ α : Type) (b : ArtifactBuilderBase σ α)
    (hk : (keys b.artifact).Nodup) :
    b.get_artifact.1.get_artifact.2 = b.get_artifact.2 ∧
    b.get_artifact.1.parsers = b.parsers ∧
    b.get_artifact.1.lineno = b.lineno ∧
    (∀ lines, (processLines b.get_artifact.1 lines).get_artifact.2 =
      assemble b.get_artifact.2 (processLines b.get_artifact.1 lines).parsers) := by
  have hart2 : b.get_artifact.2 = assemble b.artifact b.parsers := rfl
  refine ⟨?_, rfl, rfl, ?_⟩
  · show assemble (assemble b.artifact b.parsers) b.parsers = assemble b.artifact b.parsers
    apply dict_ext
    · exact nodup_keys_assemble b.parsers _ (nodup_keys_assemble b.parsers b.artifact hk)
    · apply keys_assemble_of_mem
      intro p hp
      rw [mem_keys_assemble]
      exact Or.inr (List.mem_map_of_mem SubParser.name hp)
    · intro k
      cases hlf : lastFragment b.parsers k with
      | some v =>
        rw [dictGet_assemble_of_some b.parsers k v _ hlf,
          dictGet_assemble_of_some b.parsers k v b.artifact hlf]
      | none =>
        rw [dictGet_assemble_of_none b.parsers k _ hlf]
  · intro lines
    show assemble (processLines b.get_artifact.1 lines).artifact _ = _
    rw [processLines_artifact]
    rfl

/-- Witness for C8 on the sample builder, whose artifact keys are free of
duplicates: the two successive `get_artifact` results coincide and neither
the parser list nor the line counter is reset. -/
theorem C8_get_artifact_idempotent_witness :
    (keys sampleBuilder.artifact).Nodup ∧
    sampleBuilder.get_artifact.1.get_artifact.2 = sampleBuilder.get_artifact.2 ∧
    sampleBuilder.get_artifact.1.parsers = sampleBuilder.parsers ∧
    sampleBuilder.get_artifact.1.lineno = sampleBuilder.lineno :=
  ⟨by decide,
   (C8_get_artifact_idempotent Nat Nat sampleBuilder (by decide)).1,
   (C8_get_artifact_idempotent Nat Nat sampleBuilder (by decide)).2.1,
   (C8_get_artifact_idempotent Nat Nat sampleBuilder (by decide)).2.2.1⟩

/-! Section: Claim about error propagation out of the dispatch loop -/

theorem dispatchE_cons_complete {σ α ε : Type} (p : SubParserE σ α ε)
    (ps : List (SubParserE σ α ε)) (line : List Char) (n : Nat)
    (hc : p.complete p.state = true) :
    dispatchE (p :: ps) line n = (p :: (dispatchE ps line n).1, (dispatchE ps line n).2) := by
  rw [dispatchE, if_pos hc]

theorem dispatchE_cons_error {σ α ε : Type} (p : SubParserE σ α ε)
    (ps : List (SubParserE σ α ε)) (line : List Char) (n : Nat) (e : ε)
    (hc : p.complete p.state = false) (he : p.parse_line p.state line n = Except.error e) :
    dispatchE (p :: ps) line n = (p :: ps, some e) := by
  rw [dispatchE, if_neg (by rw [hc]; exact Bool.false_ne_true), he]

theorem dispatchE_cons_ok {σ α ε : Type} (p : SubParserE σ α ε)
    (ps : List (SubParserE σ α ε)) (line : List Char) (n : Nat) (s : σ)
    (hc : p.complete p.state = false) (hs : p.parse_line p.state line n = Except.ok s) :
    dispatchE (p :: ps) line n =
      ({ p with state := s } :: (dispatchE ps line n).1, (dispatchE ps line n).2) := by
  rw [dispatchE, if_neg (by rw [hc]; exact Bool.false_ne_true), hs]

theorem dispatchE_append_of_ok {σ α ε : Type} (ys : List (SubParserE σ α ε)) (line : List Char)
    (n : Nat) :
    ∀ (xs xs' : List (SubParserE σ α ε)), dispatchE xs line n = (xs', none) →
      dispatchE (xs ++ ys) line n =
        (xs' ++ (dispatchE ys line n).1, (dispatchE ys line n).2) := by
  intro xs
  induction xs with
  | nil =>
    intro xs' h
    have h0 : (([], none) : List (SubParserE σ α ε) × Option ε) = (xs', none) := h
    rw [List.nil_append, ← (Prod.mk.injEq _ _ _ _).mp h0 |>.1, List.nil_append]
  | cons p ps ih =>
    intro xs' h
    by_cases hc : p.complete p.state = true
    · rw [dispatchE_cons_complete p ps line n hc] at h
      obtain ⟨h1, h2⟩ := (Prod.mk.injEq _ _ _ _).mp h
      have hr : dispatchE ps line n = ((dispatchE ps line n).1, none) := by
        rw [← h2]
      rw [List.cons_append, dispatchE_cons_complete p _ line n hc, ih _ hr, ← h1]
      rfl
    · have hc2 : p.complete p.state = false := by
        cases hb : p.complete p.state
        · rfl
        · exact absurd hb hc
      cases hpe : p.parse_line p.state line n with
      | error e =>
        rw [dispatchE_cons_error p ps line n e hc2 hpe] at h
        exact absurd ((Prod.mk.injEq _ _ _ _).mp h).2 (by simp)
      | ok s =>
        rw [dispatchE_cons_ok p ps line n s hc2 hpe] at h
        obtain ⟨h1, h2⟩ := (Prod.mk.injEq _ _ _ _).mp h
        have hr : dispatchE ps line n = ((dispatchE ps line n).1, none) := by
          rw [← h2]
        rw [List.cons_append, dispatchE_cons_ok p _ line n s hc2 hpe, ih _ hr, ← h1]
        rfl

/-- Claim C10: if, during a `parse_line` call, some not-yet-complete
sub-parser's line-consuming operation raises and every parser before it
consumed the line without raising, then the error propagates to the caller
unmodified, the parsers after the failing one (and the failing one itself)
receive no line for that call, the line counter is not incremented, and
the artifact and builder name are untouched. -/
theorem C10_error_propagation (σ α ε : Type) (b : ArtifactBuilderBaseE σ α ε) (line : List Char)
    (ps1 ps1' : List (SubParserE σ α ε)) (p : SubParserE σ α ε)
    (ps2 : List (SubParserE σ α ε)) (e : ε)
    (hps : b.parsers = ps1 ++ p :: ps2)
    (h1 : dispatchE ps1 (effectiveLine line) b.lineno = (ps1', none))
    (hc : p.complete p.state = false)
    (he : p.parse_line p.state (effectiveLine line) b.lineno = Except.error e) :
    (b.parse_line line).2 = some e ∧
    (b.parse_line line).1.lineno = b.lineno ∧
    (b.parse_line line).1.parsers = ps1' ++ p :: ps2 ∧
    (b.parse_line line).1.artifact = b.artifact ∧
    (b.parse_line line).1.name = b.name := by
  have hd : dispatchE b.parsers (effectiveLine line) b.lineno = (ps1' ++ p :: ps2, some e) := by
    rw [hps, dispatchE_append_of_ok _ _ _ ps1 ps1' h1,
      dispatchE_cons_error p ps2 _ _ e hc he]
  simp only [ArtifactBuilderBaseE.parse_line, hd]
  simp

/-- Witness for C10: in the sample fallible builder the first parser raises
on any line; the call returns the raised error, the second parser's state is
untouched and the line counter stays at its pre-call value 5. -/
theorem C10_error_propagation_witness :
    sampleBuilderE.parsers = [] ++ raisingParser :: [countingParserE "after"] ∧
    dispatchE ([] : List (SubParserE Nat Nat String)) (effectiveLine "x".toList)
      sampleBuilderE.lineno = ([], none) ∧
    raisingParser.complete raisingParser.state = false ∧
    raisingParser.parse_line raisingParser.state (effectiveLine "x".toList)
      sampleBuilderE.lineno = Except.error "boom" ∧
    ((sampleBuilderE.parse_line "x".toList).2 = some "boom" ∧
      (sampleBuilderE.parse_line "x".toList).1.lineno = sampleBuilderE.lineno ∧
      (sampleBuilderE.parse_line "x".toList).1.parsers =
        [] ++ raisingParser :: [countingParserE "after"] ∧
      (sampleBuilderE.parse_line "x".toList).1.artifact = sampleBuilderE.artifact ∧
      (sampleBuilderE.parse_line "x".toList).1.name = sampleBuilderE.name) :=
  ⟨rfl, rfl, rfl, rfl,
   C10_error_propagation Nat Nat String sampleBuilderE "x".toList [] [] raisingParser
     [countingParserE "after"] "boom" rfl rfl rfl rfl⟩

end Treeherder
